import Mathlib

/-
  Verification development for the Fish Tank negotiation session state
  machine (Express backend, routes/fishtank variant with GAME_CONFIG).

  The stateful TypeScript functions are shallowly embedded as pure Lean
  functions on an explicit session state.  Every external LLM call is
  abstracted as an oracle value passed in:
    - conviction scoring per judge: the parseInt outcome of the model text,
      as Option Int (none = NaN, i.e. non-numeric content or call failure);
    - player-intent classification: Option PlayerAnalysis (none = call
      failure or unparseable JSON, which the source maps to safe defaults);
    - offer extraction: Option (amount, equity) (none = null result).
  JS numbers stored in the state are always integers (parseInt results,
  Math.round results, JSON integers), so they are modelled as Int / Nat.
  The conviction-smoothing expression conviction*0.7 + score*10*0.3 is
  evaluated by the program in IEEE binary64; it is modelled bit-exactly by
  dyadic arithmetic with correct rounding (round to nearest, ties to even)
  after each operation, and Math.round is applied to the exact value of the
  resulting double (round half up), as ECMAScript defines it.  The offer
  formulas conviction*1000 and conviction/2 only involve exactly
  representable doubles, so there plain rational rounding (floor(x + 1/2))
  is bit-faithful.
  A JS exception escaping processUserInput (property access on undefined)
  is modelled by the threw flag of ProcessResult; mutations performed
  before the throw are kept, as in the source, since the session object is
  mutated in place.
-/

namespace FishTank

/-- Math.round semantics for the (nonnegative) values arising in this code:
round half away from zero equals floor(x + 1/2) for x >= 0. -/
def jsRound (q : ℚ) : ℤ := ⌊q + 1/2⌋

/-- The four game stages of a session (type GameStage in the source). -/
inductive GameStage where
  | evaluation
  | initial_offers
  | negotiation
  | closure
deriving DecidableEq, Repr

/-- Rank of a stage in the intended forward order. -/
def stageIdx : GameStage → ℕ
  | GameStage.evaluation => 0
  | GameStage.initial_offers => 1
  | GameStage.negotiation => 2
  | GameStage.closure => 3

/-- An offer record (interface JudgeOffer / Judge.currentOffer). -/
structure JudgeOffer where
  amount : ℤ
  equity : ℤ
  isFinal : Bool
deriving DecidableEq, Repr

/-- Per-judge mutable state (interface Judge); the prompt strings are kept
only as far as claims need them. -/
structure Judge where
  id : String
  name : String
  convictionLevel : ℕ
  questionsAsked : ℕ
  currentOffer : Option JudgeOffer
deriving DecidableEq, Repr

/-- One transcript entry (interface Dialogue), reduced to speaker and text. -/
structure Dialogue where
  speaker : String
  text : String
deriving DecidableEq, Repr

/-- Session state (interface GameSession); judges are an ordered list, since
Object.values on the judges record yields insertion order, and judgeOffers is
an insertion-ordered association list, as a JS object of offers is. -/
structure GameSession where
  id : String
  conversationHistory : List Dialogue
  judges : List Judge
  currentStage : GameStage
  stageProgress : ℕ
  playerResponseCount : ℕ
  negotiationRound : ℕ
  judgeOffers : List (String × JudgeOffer)
  acceptedOffer : Option String
deriving DecidableEq, Repr

/-- The GAME_CONFIG constant. -/
structure GameConfig where
  maxEvaluationResponses : ℕ
  maxNegotiationRounds : ℕ

def GAME_CONFIG : GameConfig := { maxEvaluationResponses := 3, maxNegotiationRounds := 3 }

/-- The static judge registry built by JudgeManager, in insertion order
(judge1, judge2, judge3), restricted to the modelled fields. -/
def registryJudges : List Judge :=
  [ { id := "judge1", name := "Namita Thapar", convictionLevel := 40,
      questionsAsked := 0, currentOffer := none },
    { id := "judge2", name := "Aman Gupta", convictionLevel := 50,
      questionsAsked := 0, currentOffer := none },
    { id := "judge3", name := "Ashneer Grover", convictionLevel := 35,
      questionsAsked := 0, currentOffer := none } ]

/-- A nonnegative IEEE binary64 value, represented exactly as m / 2 ^ e.
Every value reached by the conviction computation lies well inside the
normal range, so exponent handling reduces to tracking e. -/
structure Double where
  m : ℕ
  e : ℕ
deriving DecidableEq, Repr

/-- Bits of m in excess of the 53-bit significand, for m < 2 ^ 64 (the
range reached by the conviction computation; larger inputs never occur). -/
def excess53 (m : ℕ) : ℕ :=
  if m < 2 ^ 53 then 0
  else if m < 2 ^ 54 then 1
  else if m < 2 ^ 55 then 2
  else if m < 2 ^ 56 then 3
  else if m < 2 ^ 57 then 4
  else if m < 2 ^ 58 then 5
  else if m < 2 ^ 59 then 6
  else if m < 2 ^ 60 then 7
  else if m < 2 ^ 61 then 8
  else if m < 2 ^ 62 then 9
  else if m < 2 ^ 63 then 10
  else 11

/-- Round m / 2 ^ e to the nearest 53-bit-significand value, ties to even:
the IEEE-754 correct rounding applied after each arithmetic operation. -/
def roundNearestEven53 (m : ℕ) (e : ℕ) : Double :=
  let d := excess53 m
  if d = 0 then ⟨m, e⟩
  else
    let q := m / 2 ^ d
    let rem := m % 2 ^ d
    let half := 2 ^ (d - 1)
    let q2 := if half < rem ∨ (rem = half ∧ q % 2 = 1) then q + 1 else q
    ⟨q2, e - d⟩

/-- Correctly rounded binary64 product of a small integer (which is exactly
representable) and a double. -/
def dblMulNat (k : ℕ) (x : Double) : Double := roundNearestEven53 (k * x.m) x.e

/-- Correctly rounded binary64 sum of two nonnegative doubles. -/
def dblAdd (x y : Double) : Double :=
  let e := max x.e y.e
  roundNearestEven53 (x.m * 2 ^ (e - x.e) + y.m * 2 ^ (e - y.e)) e

/-- The binary64 value nearest 0.7, namely 3152519739159347 / 2 ^ 52 (the
literal 0.7 in the source denotes this double). -/
def double0_7 : Double := ⟨3152519739159347, 52⟩

/-- The binary64 value nearest 0.3, namely 5404319552844595 / 2 ^ 54. -/
def double0_3 : Double := ⟨5404319552844595, 54⟩

/-- Math.round of a nonnegative double: ECMAScript rounds the exact value
of the argument half up, so for m / 2 ^ e this is floor of
(m / 2 ^ e + 1/2) = (2 m + 2 ^ e) / 2 ^ (e + 1). -/
def mathRound (x : Double) : ℕ := (2 * x.m + 2 ^ x.e) / 2 ^ (x.e + 1)

/-- The valid-score conviction update exactly as the program computes it:
Math.round(convictionLevel * 0.7 + (newScore * 10) * 0.3) with the inner
expression evaluated in binary64 (newScore * 10 is an exact integer; the
two products and the sum are each correctly rounded). -/
def jsConvictionUpdate (convictionLevel newScore : ℕ) : ℕ :=
  mathRound (dblAdd (dblMulNat convictionLevel double0_7)
    (dblMulNat (newScore * 10) double0_3))

/-- Embeds analyzeMessage: given the current conviction of the judge and the
parseInt outcome of the scoring call (none when the call failed or the text
was non-numeric), returns the new conviction.  NaN and out-of-range scores
are discarded (conviction unchanged); a valid score is smoothed by
Math.round(conviction*0.7 + score*10*0.3), evaluated in binary64. -/
def analyzeMessage (convictionLevel : ℕ) (score : Option ℤ) : ℕ :=
  match score with
  | none => convictionLevel
  | some newScore =>
    if newScore < 0 ∨ 10 < newScore then convictionLevel
    else jsConvictionUpdate convictionLevel newScore.toNat

/-- The parallel Promise.all scoring pass over all judges: each judge is
updated with its own oracle outcome (a missing entry behaves like a failed
call, leaving the conviction unchanged, exactly as analyzeMessage does). -/
def scoreJudges : List Judge → List (Option ℤ) → List Judge
  | [], _ => []
  | j :: js, [] =>
    { j with convictionLevel := analyzeMessage j.convictionLevel none } :: scoreJudges js []
  | j :: js, sc :: ss =>
    { j with convictionLevel := analyzeMessage j.convictionLevel sc } :: scoreJudges js ss

/-- Result shape of analyzePlayerResponse (the classification JSON). -/
structure PlayerAnalysis where
  isAcceptance : Bool
  isCounterOffer : Bool
  counterOfferAmount : Option ℤ
  counterOfferEquity : Option ℤ
deriving DecidableEq, Repr

/-- JS truthiness of an optional number: null/undefined and 0 are falsy. -/
def numTruthy : Option ℤ → Bool
  | none => false
  | some a => a != 0

/-- Embeds analyzePlayerResponse: a successful call returns the parsed
object; a failed call (network error or unparseable JSON) is caught and
replaced by the safe default with both flags false. -/
def analyzePlayerResponse (result : Option PlayerAnalysis) : PlayerAnalysis :=
  match result with
  | some r => r
  | none => { isAcceptance := false, isCounterOffer := false,
              counterOfferAmount := none, counterOfferEquity := none }

/-- Judges with convictionLevel >= 50 (the interestedJudges filter). -/
def interestedJudges (judges : List Judge) : List Judge :=
  judges.filter (fun j => decide (50 ≤ j.convictionLevel))

/-- Some judge has convictionLevel >= 50 (the hasInterestedJudges check). -/
def hasInterestedJudges (judges : List Judge) : Bool :=
  judges.any (fun j => decide (50 ≤ j.convictionLevel))

/-- Stable insertion of a judge into a conviction-descending list: the judge
goes in front of the first strictly less convinced judge, after all earlier
judges of greater or equal conviction — the placement produced by the stable
Array.prototype.sort with comparator (a, b) => b.convictionLevel - a.convictionLevel. -/
def insertDesc (j : Judge) : List Judge → List Judge
  | [] => [j]
  | k :: ks =>
    if k.convictionLevel ≤ j.convictionLevel then j :: k :: ks
    else k :: insertDesc j ks

/-- Stable sort by descending convictionLevel. -/
def sortByConvictionDesc (l : List Judge) : List Judge := l.foldr insertDesc []

/-- The highestConvictionJudge selection: filter to conviction >= 50, sort
descending, take element 0.  none models the undefined element the source
reads when the filter is empty. -/
def highestConvictionJudge (judges : List Judge) : Option Judge :=
  (sortByConvictionDesc (interestedJudges judges)).head?

/-- Write an offer under a judge id into the judgeOffers object: overwrite
in place if the key exists, otherwise append (JS object key order). -/
def setOffer (offers : List (String × JudgeOffer)) (jid : String) (off : JudgeOffer) :
    List (String × JudgeOffer) :=
  if offers.any (fun p => decide (p.1 = jid)) then
    offers.map (fun p => if p.1 = jid then (jid, off) else p)
  else offers ++ [(jid, off)]

/-- The generated initial offer for an interested judge on the
evaluation -> initial_offers transition: amount = Math.round(conviction*1000),
equity = Math.round(conviction/2), not final. -/
def initialOfferFor (j : Judge) : JudgeOffer :=
  { amount := jsRound ((j.convictionLevel : ℚ) * 1000)
    equity := jsRound ((j.convictionLevel : ℚ) / 2)
    isFinal := false }

/-- The offer-generation loop over interested judges: sets each interested
currentOffer of the judge and records it in judgeOffers. -/
def giveInitialOffers (s : GameSession) : GameSession :=
  { s with
    judges := s.judges.map (fun j =>
      if 50 ≤ j.convictionLevel then { j with currentOffer := some (initialOfferFor j) } else j)
    judgeOffers := (interestedJudges s.judges).foldl
      (fun m j => setOffer m j.id (initialOfferFor j)) s.judgeOffers }

/-- Per-turn oracle: the scoring outcomes (one per judge, in judge order)
and the classification outcome. -/
structure Oracle where
  scores : List (Option ℤ)
  analysis : Option PlayerAnalysis

/-- Outcome of one processUserInput call: the session state after all
mutations (those preceding a throw included), whether a TypeError escaped
(property access on an undefined highest-conviction judge), and whether the
player-intent classification call was made for this turn. -/
structure ProcessResult where
  session : GameSession
  threw : Bool
  classifierCalled : Bool
deriving DecidableEq, Repr

/-- The evaluation case of the processUserInput switch; s is the session
after the history push and the scoring pass. -/
def stepEvaluation (s : GameSession) : ProcessResult :=
  let s := { s with stageProgress := s.stageProgress + 1,
                    playerResponseCount := s.playerResponseCount + 1 }
  if GAME_CONFIG.maxEvaluationResponses ≤ s.playerResponseCount then
    let s := { s with currentStage := GameStage.initial_offers,
                      stageProgress := 0, playerResponseCount := 0 }
    if interestedJudges s.judges = [] then
      { session := { s with currentStage := GameStage.closure },
        threw := false, classifierCalled := false }
    else
      { session := giveInitialOffers s, threw := false, classifierCalled := false }
  else { session := s, threw := false, classifierCalled := false }

/-- The initial_offers case of the processUserInput switch.  With no
interested judge left, closure is forced without classifying.  Otherwise the
message is classified; acceptance records the highest-conviction qualifying
id of that judge and closes; a counter-offer moves to negotiation and, when both
extracted numbers are truthy, overwrites the judgeOffers entry of that judge;
neither moves to negotiation. -/
def stepInitialOffers (s : GameSession) (analysisResult : Option PlayerAnalysis) :
    ProcessResult :=
  if ¬ hasInterestedJudges s.judges then
    { session := { s with currentStage := GameStage.closure, stageProgress := 0 },
      threw := false, classifierCalled := false }
  else
    let a := analyzePlayerResponse analysisResult
    if a.isAcceptance then
      let s := { s with currentStage := GameStage.closure, stageProgress := 0 }
      match highestConvictionJudge s.judges with
      | none => { session := s, threw := true, classifierCalled := true }
      | some h =>
        { session := { s with acceptedOffer := some h.id },
          threw := false, classifierCalled := true }
    else if a.isCounterOffer then
      let s := { s with currentStage := GameStage.negotiation,
                        stageProgress := 0, negotiationRound := 0 }
      if numTruthy a.counterOfferAmount && numTruthy a.counterOfferEquity then
        match highestConvictionJudge s.judges with
        | none => { session := s, threw := true, classifierCalled := true }
        | some h =>
          let off : JudgeOffer :=
            { amount := a.counterOfferAmount.getD 0,
              equity := a.counterOfferEquity.getD 0, isFinal := false }
          { session := { s with judgeOffers := setOffer s.judgeOffers h.id off },
            threw := false, classifierCalled := true }
      else { session := s, threw := false, classifierCalled := true }
    else
      { session := { s with currentStage := GameStage.negotiation,
                            stageProgress := 0, negotiationRound := 0 },
        threw := false, classifierCalled := true }

/-- The negotiation case of the processUserInput switch.  The round counter
is bumped first; at the maximum the session closes without classifying.
Below it, acceptance closes and records the highest-conviction qualifying
judge (with no interested-judge guard in this case: the undefined read
throws); a truthy counter-offer overwrites the entry of that judge likewise
without a guard; neither leaves everything as is. -/
def stepNegotiation (s : GameSession) (analysisResult : Option PlayerAnalysis) :
    ProcessResult :=
  let s := { s with negotiationRound := s.negotiationRound + 1,
                    stageProgress := s.stageProgress + 1 }
  if GAME_CONFIG.maxNegotiationRounds ≤ s.negotiationRound then
    { session := { s with currentStage := GameStage.closure, stageProgress := 0 },
      threw := false, classifierCalled := false }
  else
    let a := analyzePlayerResponse analysisResult
    if a.isAcceptance then
      let s := { s with currentStage := GameStage.closure, stageProgress := 0 }
      match highestConvictionJudge s.judges with
      | none => { session := s, threw := true, classifierCalled := true }
      | some h =>
        { session := { s with acceptedOffer := some h.id },
          threw := false, classifierCalled := true }
    else if a.isCounterOffer then
      if numTruthy a.counterOfferAmount && numTruthy a.counterOfferEquity then
        match highestConvictionJudge s.judges with
        | none => { session := s, threw := true, classifierCalled := true }
        | some h =>
          let off : JudgeOffer :=
            { amount := a.counterOfferAmount.getD 0,
              equity := a.counterOfferEquity.getD 0, isFinal := false }
          { session := { s with judgeOffers := setOffer s.judgeOffers h.id off },
            threw := false, classifierCalled := true }
      else { session := s, threw := false, classifierCalled := true }
    else { session := s, threw := false, classifierCalled := true }

/-- The stage-independent preamble of processUserInput: push the player
message onto the transcript and run the scoring pass over all judges. -/
def pushAndScore (s0 : GameSession) (userInput : String) (scores : List (Option ℤ)) :
    GameSession :=
  { s0 with
    conversationHistory := s0.conversationHistory ++ [Dialogue.mk "player" userInput]
    judges := scoreJudges s0.judges scores }

/-- Embeds processUserInput: push the player message onto the transcript,
run the scoring pass over all judges, then dispatch on the current stage;
the closure stage performs no further mutation. -/
def processUserInput (s0 : GameSession) (userInput : String) (o : Oracle) : ProcessResult :=
  let s := pushAndScore s0 userInput o.scores
  match s.currentStage with
  | GameStage.evaluation => stepEvaluation s
  | GameStage.initial_offers => stepInitialOffers s o.analysis
  | GameStage.negotiation => stepNegotiation s o.analysis
  | GameStage.closure =>
    ({ session := s, threw := false, classifierCalled := false } : ProcessResult)

/-- Character-list version of String.startsWith used to define substring
containment. -/
def startsWithChars : List Char → List Char → Bool
  | _, [] => true
  | [], _ :: _ => false
  | c :: cs, p :: ps => c == p && startsWithChars cs ps

/-- Substring containment on character lists (the semantics of the JS
String.prototype.includes call). -/
def hasSubstring : List Char → List Char → Bool
  | [], pat => pat.isEmpty
  | c :: cs, pat => startsWithChars (c :: cs) pat || hasSubstring cs pat

/-- The JS toLowerCase call, on the ASCII texts involved here. -/
def jsToLowerCase (s : String) : String := String.mk (s.data.map Char.toLower)

/-- The JS includes call. -/
def jsIncludes (s pat : String) : Bool := hasSubstring s.data pat.data

/-- ASCII apostrophe. -/
def apostropheChar : Char := Char.ofNat 39

/-- The two bail-out markers scanned for in a judge reply: the apostrophe
variant and the plain variant. -/
def imOutApos : String := String.mk (['i', apostropheChar] ++ "m out".data)

def imOutPlain : String := "im out"

/-- The bail-out test applied to a generated reply. -/
def mentionsOut (reply : String) : Bool :=
  jsIncludes (jsToLowerCase reply) imOutApos || jsIncludes (jsToLowerCase reply) imOutPlain

/-- Outcome of generateJudgeResponse on judge state: the updated judge and
the judgeOffers entry written for it (if any). -/
structure JudgeReplyEffect where
  judge : Judge
  offerRecorded : Option JudgeOffer
deriving DecidableEq, Repr

/-- Embeds the state mutation of generateJudgeResponse once the reply text
is in hand: a reply containing a bail-out marker (case-insensitively) zeroes
the conviction; otherwise, in the initial_offers stage, a successfully
extracted offer (the oracle outcome of extractOfferDetails, none = null) is
stored as the currentOffer of the judge and recorded in judgeOffers; in all cases
questionsAsked is incremented. -/
def generateJudgeResponse (stage : GameStage) (judge : Judge) (reply : String)
    (extractedOffer : Option (ℤ × ℤ)) : JudgeReplyEffect :=
  if mentionsOut reply then
    { judge := { judge with convictionLevel := 0, questionsAsked := judge.questionsAsked + 1 },
      offerRecorded := none }
  else if stage = GameStage.initial_offers then
    match extractedOffer with
    | some (amt, eqy) =>
      let off : JudgeOffer := { amount := amt, equity := eqy, isFinal := false }
      { judge := { judge with currentOffer := some off,
                              questionsAsked := judge.questionsAsked + 1 },
        offerRecorded := some off }
    | none =>
      { judge := { judge with questionsAsked := judge.questionsAsked + 1 },
        offerRecorded := none }
  else
    { judge := { judge with questionsAsked := judge.questionsAsked + 1 },
      offerRecorded := none }

/-- Embeds the replying-judge selection of the reply endpoint, applied after
processUserInput: in evaluation the first two judges in registry order,
otherwise the judges with conviction >= 20 sorted by descending conviction
and truncated to two. -/
def selectReplyingJudges (stage : GameStage) (judges : List Judge) : List Judge :=
  if stage = GameStage.evaluation then judges.take 2
  else
    (sortByConvictionDesc (judges.filter (fun j => decide (20 ≤ j.convictionLevel)))).take 2

/-- Convenience constructor for concrete session states used in witnesses:
a fresh-looking session at the given stage with the given judges and
counters, empty transcript and no offers. -/
def exampleSession (stage : GameStage) (judges : List Judge)
    (responseCount negRound : ℕ) : GameSession :=
  { id := "session-1", conversationHistory := [], judges := judges,
    currentStage := stage, stageProgress := 0, playerResponseCount := responseCount,
    negotiationRound := negRound, judgeOffers := [], acceptedOffer := none }

/-- A judge literal for concrete inputs. -/
def mkJudge (jid nm : String) (conviction : ℕ) : Judge :=
  { id := jid, name := nm, convictionLevel := conviction,
    questionsAsked := 0, currentOffer := none }

/- ------------------------------------------------------------------
   Helper lemmas
   ------------------------------------------------------------------ -/

theorem jsRound_intCast_div_ten (n : ℤ) : jsRound ((n : ℚ) / 10) = (n + 5) / 10 := by
  unfold jsRound
  have h : (n : ℚ) / 10 + 1 / 2 = ((n + 5 : ℤ) : ℚ) / ((10 : ℕ) : ℚ) := by
    push_cast
    ring
  rw [h, Rat.floor_intCast_div_natCast]
  norm_num

theorem jsRound_intCast_div_two (n : ℤ) : jsRound ((n : ℚ) / 2) = (n + 1) / 2 := by
  unfold jsRound
  have h : (n : ℚ) / 2 + 1 / 2 = ((n + 1 : ℤ) : ℚ) / ((2 : ℕ) : ℚ) := by
    push_cast
    ring
  rw [h, Rat.floor_intCast_div_natCast]
  norm_num

/-- For a valid score the update is the binary64 computation on the
truncation of the score to a natural number. -/
theorem analyzeMessage_valid_eq (c : ℕ) (s : ℤ) (h0 : 0 ≤ s) (h10 : s ≤ 10) :
    analyzeMessage c (some s) = jsConvictionUpdate c s.toNat := by
  simp only [analyzeMessage]
  rw [if_neg (by omega)]

/-- Finite verification of the binary64 conviction update over its whole
reachable domain (conviction 0..100, score 0..10): the result is at most
100, and it equals the exact-arithmetic rounding
round((7c + 30t)/10) = (7c + 30t + 5) / 10 except possibly one below it,
with equality guaranteed whenever the exact value is not a half-integer,
i.e. whenever (7c + 30t) % 10 is not 5. -/
theorem jsConvictionUpdate_cases : ∀ c < 101, ∀ t < 11,
    jsConvictionUpdate c t ≤ 100
    ∧ (jsConvictionUpdate c t = (7 * c + 30 * t + 5) / 10
       ∨ jsConvictionUpdate c t + 1 = (7 * c + 30 * t + 5) / 10)
    ∧ ((7 * c + 30 * t) % 10 ≠ 5 → jsConvictionUpdate c t = (7 * c + 30 * t + 5) / 10) := by
  decide

theorem analyzeMessage_none (c : ℕ) : analyzeMessage c none = c := rfl

theorem analyzeMessage_invalid (c : ℕ) (s : ℤ) (h : s < 0 ∨ 10 < s) :
    analyzeMessage c (some s) = c := by
  simp only [analyzeMessage]
  rw [if_pos h]

/-- Closed integer form of the generated initial offer. -/
theorem initialOfferFor_eq (j : Judge) :
    initialOfferFor j
      = { amount := (j.convictionLevel : ℤ) * 1000,
          equity := ((j.convictionLevel : ℤ) + 1) / 2, isFinal := false } := by
  unfold initialOfferFor
  have ha : ((j.convictionLevel : ℚ)) * 1000 = ((10000 * (j.convictionLevel : ℤ) : ℤ) : ℚ) / 10 := by
    push_cast
    ring
  have he : ((j.convictionLevel : ℚ)) / 2 = (((j.convictionLevel : ℤ) : ℤ) : ℚ) / 2 := by
    push_cast
    ring
  rw [ha, jsRound_intCast_div_ten, he, jsRound_intCast_div_two]
  have : (10000 * (j.convictionLevel : ℤ) + 5) / 10 = (j.convictionLevel : ℤ) * 1000 := by
    omega
  rw [this]

/-- Scoring never touches the currentOffer field of any judge. -/
theorem scoreJudges_map_currentOffer : ∀ (js : List Judge) (ss : List (Option ℤ)),
    (scoreJudges js ss).map Judge.currentOffer = js.map Judge.currentOffer
  | [], _ => rfl
  | j :: js, [] => by
    simp [scoreJudges, scoreJudges_map_currentOffer js []]
  | j :: js, sc :: ss => by
    simp [scoreJudges, scoreJudges_map_currentOffer js ss]

/-- Scoring never touches the id field of any judge. -/
theorem scoreJudges_map_id : ∀ (js : List Judge) (ss : List (Option ℤ)),
    (scoreJudges js ss).map Judge.id = js.map Judge.id
  | [], _ => rfl
  | j :: js, [] => by
    simp [scoreJudges, scoreJudges_map_id js []]
  | j :: js, sc :: ss => by
    simp [scoreJudges, scoreJudges_map_id js ss]

theorem pushAndScore_currentStage (s0 : GameSession) (m : String) (ss : List (Option ℤ)) :
    (pushAndScore s0 m ss).currentStage = s0.currentStage := rfl

theorem processUserInput_dispatch (s0 : GameSession) (m : String) (o : Oracle) :
    processUserInput s0 m o
      = match s0.currentStage with
        | GameStage.evaluation => stepEvaluation (pushAndScore s0 m o.scores)
        | GameStage.initial_offers => stepInitialOffers (pushAndScore s0 m o.scores) o.analysis
        | GameStage.negotiation => stepNegotiation (pushAndScore s0 m o.scores) o.analysis
        | GameStage.closure =>
          { session := pushAndScore s0 m o.scores, threw := false, classifierCalled := false } :=
  rfl

theorem insertDesc_perm (j : Judge) (l : List Judge) :
    List.Perm (insertDesc j l) (j :: l) := by
  induction l with
  | nil => exact List.Perm.refl _
  | cons k ks ih =>
    simp only [insertDesc]
    split
    · exact List.Perm.refl _
    · exact (List.Perm.cons k ih).trans (List.Perm.swap j k ks)

theorem sortByConvictionDesc_perm (l : List Judge) :
    List.Perm (sortByConvictionDesc l) l := by
  induction l with
  | nil => exact List.Perm.refl _
  | cons j js ih =>
    exact (insertDesc_perm j (sortByConvictionDesc js)).trans (List.Perm.cons j ih)

theorem insertDesc_pairwise (j : Judge) (l : List Judge)
    (h : List.Pairwise (fun a b => b.convictionLevel ≤ a.convictionLevel) l) :
    List.Pairwise (fun a b => b.convictionLevel ≤ a.convictionLevel) (insertDesc j l) := by
  induction l with
  | nil => simp [insertDesc]
  | cons k ks ih =>
    rcases List.pairwise_cons.mp h with ⟨hk, hks⟩
    simp only [insertDesc]
    split
    · rename_i hle
      refine List.pairwise_cons.mpr ⟨?_, h⟩
      intro x hx
      rcases List.mem_cons.mp hx with rfl | hx
      · exact hle
      · exact le_trans (hk x hx) hle
    · rename_i hgt
      refine List.pairwise_cons.mpr ⟨?_, ih hks⟩
      intro x hx
      rcases List.mem_cons.mp ((insertDesc_perm j ks).mem_iff.mp hx) with rfl | hx
      · omega
      · exact hk x hx

theorem sortByConvictionDesc_pairwise (l : List Judge) :
    List.Pairwise (fun a b => b.convictionLevel ≤ a.convictionLevel)
      (sortByConvictionDesc l) := by
  induction l with
  | nil => simp [sortByConvictionDesc]
  | cons j js ih => exact insertDesc_pairwise j (sortByConvictionDesc js) ih

theorem hasInterestedJudges_iff (judges : List Judge) :
    hasInterestedJudges judges = true ↔ interestedJudges judges ≠ [] := by
  unfold hasInterestedJudges interestedJudges
  constructor
  · intro h hnil
    obtain ⟨j, hj, hc⟩ := List.any_eq_true.mp h
    exact List.filter_eq_nil_iff.mp hnil j hj hc
  · intro hne
    obtain ⟨j, hj⟩ := List.exists_mem_of_ne_nil _ hne
    obtain ⟨hjl, hc⟩ := List.mem_filter.mp hj
    exact List.any_eq_true.mpr ⟨j, hjl, hc⟩

theorem highestConvictionJudge_isSome (judges : List Judge)
    (h : hasInterestedJudges judges = true) :
    ∃ hj, highestConvictionJudge judges = some hj := by
  unfold highestConvictionJudge
  have hne : interestedJudges judges ≠ [] := (hasInterestedJudges_iff judges).mp h
  cases hs : sortByConvictionDesc (interestedJudges judges) with
  | nil =>
    exfalso
    apply hne
    have := sortByConvictionDesc_perm (interestedJudges judges)
    rw [hs] at this
    exact (List.Perm.nil_eq this).symm
  | cons a l => exact ⟨a, rfl⟩

theorem forall₂_map_self {P : Judge → Judge → Prop} (f : Judge → Judge) :
    ∀ (l : List Judge), (∀ a ∈ l, P (f a) a) → List.Forall₂ P (l.map f) l
  | [], _ => List.Forall₂.nil
  | a :: l, h => by
    refine List.Forall₂.cons (h a (List.mem_cons_self a l)) ?_
    exact forall₂_map_self f l (fun b hb => h b (List.mem_cons_of_mem a hb))

theorem stepEvaluation_stage (s : GameSession) :
    (stepEvaluation s).session.currentStage = s.currentStage
    ∨ (stepEvaluation s).session.currentStage = GameStage.initial_offers
    ∨ (stepEvaluation s).session.currentStage = GameStage.closure := by
  unfold stepEvaluation giveInitialOffers
  dsimp only
  split
  · split
    · simp
    · simp
  · simp

theorem stepEvaluation_no_throw (s : GameSession) : (stepEvaluation s).threw = false := by
  unfold stepEvaluation
  dsimp only
  split
  · split <;> simp
  · simp

theorem stepInitialOffers_stage (s : GameSession) (a : Option PlayerAnalysis) :
    (stepInitialOffers s a).session.currentStage = GameStage.closure
    ∨ (stepInitialOffers s a).session.currentStage = GameStage.negotiation := by
  unfold stepInitialOffers
  dsimp only
  split
  · simp
  · split
    · split <;> simp
    · split
      · split
        · split <;> simp
        · simp
      · simp

theorem stepNegotiation_stage (s : GameSession) (a : Option PlayerAnalysis) :
    (stepNegotiation s a).session.currentStage = GameStage.closure
    ∨ (stepNegotiation s a).session.currentStage = s.currentStage := by
  unfold stepNegotiation
  dsimp only
  split
  · simp
  · split
    · split <;> simp
    · split
      · split
        · split <;> simp
        · simp
      · simp

/- ------------------------------------------------------------------
   Claim theorems
   ------------------------------------------------------------------ -/

/-- C1 counterexample: at conviction 45 with the valid score 0 the program
evaluates 45 * 0.7 in binary64 to 31.499999999999996 (45 times the double
nearest 0.7 rounds down), and Math.round gives 31, whereas the exact
formula of the claim gives round(31.5) = 32, so the claimed value equation
is false of the program at a reachable input (45 is reached from the
initial conviction 40 by scores 2 then 7). -/
theorem C1_counterexample :
    analyzeMessage 45 (some 0) = 31
    ∧ jsRound ((45 : ℚ) * (7 / 10) + (((0 : ℤ) : ℚ) * 10) * (3 / 10)) = 32 := by
  constructor
  · decide
  · have hq : (45 : ℚ) * (7 / 10) + (((0 : ℤ) : ℚ) * 10) * (3 / 10)
        = ((315 : ℤ) : ℚ) / 10 := by
      norm_num
    rw [hq, jsRound_intCast_div_ten]
    decide

/-- C1 (amended): when the score returned for a message parses to an
integer s with 0 <= s <= 10, analyzeMessage sets the conviction of the
judge to Math.round of the binary64 evaluation of old*0.7 + s*10*0.3; for
an old conviction within 0..100 the result stays within 0..100 (convictions
are naturals, so the lower bound is by type), and it agrees with the exact
formula round(old*0.7 + s*10*0.3) except possibly one below it at the
half-integer ties 7*old + 30*s = 5 mod 10, where the double sum can fall
just under the tie; off the ties the exact formula is met.  A non-numeric
score (NaN) or one below 0 or above 10 leaves the conviction unchanged. -/
theorem C1_analyzeMessage_conviction_update (old : ℕ) (hold : old ≤ 100) :
    (∀ s : ℤ, 0 ≤ s → s ≤ 10 →
        analyzeMessage old (some s) = jsConvictionUpdate old s.toNat
        ∧ analyzeMessage old (some s) ≤ 100
        ∧ ((analyzeMessage old (some s) : ℤ)
              = jsRound ((old : ℚ) * (7 / 10) + ((s : ℚ) * 10) * (3 / 10))
           ∨ (analyzeMessage old (some s) : ℤ)
              = jsRound ((old : ℚ) * (7 / 10) + ((s : ℚ) * 10) * (3 / 10)) - 1)
        ∧ ((7 * old + 30 * s.toNat) % 10 ≠ 5 →
            (analyzeMessage old (some s) : ℤ)
              = jsRound ((old : ℚ) * (7 / 10) + ((s : ℚ) * 10) * (3 / 10))))
    ∧ analyzeMessage old none = old
    ∧ (∀ s : ℤ, s < 0 ∨ 10 < s → analyzeMessage old (some s) = old) := by
  refine ⟨fun s h0 h10 => ?_, rfl, fun s h => analyzeMessage_invalid old s h⟩
  have hval := analyzeMessage_valid_eq old s h0 h10
  have hc : old < 101 := by omega
  have ht : s.toNat < 11 := by omega
  have hfin := jsConvictionUpdate_cases old hc s.toNat ht
  have hst : ((s.toNat : ℤ)) = s := Int.toNat_of_nonneg h0
  have hq : (old : ℚ) * (7 / 10) + ((s : ℚ) * 10) * (3 / 10)
      = ((7 * (old : ℤ) + 30 * s : ℤ) : ℚ) / 10 := by
    push_cast
    ring
  rw [hval, hq, jsRound_intCast_div_ten]
  refine ⟨rfl, hfin.1, ?_, fun hmod => ?_⟩
  · rcases hfin.2.1 with heq | heq
    · left
      omega
    · right
      omega
  · have heq := hfin.2.2 hmod
    omega

theorem C1_witness :
    (40 : ℕ) ≤ 100
    ∧ (0 : ℤ) ≤ 8
    ∧ (8 : ℤ) ≤ 10
    ∧ (7 * 40 + 30 * (8 : ℤ).toNat) % 10 ≠ 5
    ∧ (analyzeMessage 40 (some 8) : ℤ)
        = jsRound ((40 : ℚ) * (7 / 10) + (((8 : ℤ) : ℚ) * 10) * (3 / 10))
    ∧ analyzeMessage 40 (some 8) ≤ 100
    ∧ analyzeMessage 40 none = 40
    ∧ analyzeMessage 40 (some 11) = 40 := by
  have h := C1_analyzeMessage_conviction_update 40 (by decide)
  have h8 := h.1 8 (by decide) (by decide)
  exact ⟨by decide, by decide, by decide, by decide,
    h8.2.2.2 (by decide), h8.2.1, h.2.1, h.2.2 11 (by decide)⟩

/-- C2: stage transitions are monotonic with respect to the order
evaluation, initial_offers, negotiation, closure, for every session, message
and oracle outcome; moreover, once the session is in closure, a further
processUserInput call keeps the stage at closure and mutates neither the
offers record, the accepted-offer reference, nor the current offer of any judge,
while the turn is still processed (the message is appended to the
transcript). -/
theorem C2_stage_monotonic (s : GameSession) (m : String) (o : Oracle) :
    stageIdx s.currentStage ≤ stageIdx (processUserInput s m o).session.currentStage
    ∧ (s.currentStage = GameStage.closure →
        (processUserInput s m o).session.currentStage = GameStage.closure
        ∧ (processUserInput s m o).session.judgeOffers = s.judgeOffers
        ∧ (processUserInput s m o).session.acceptedOffer = s.acceptedOffer
        ∧ (processUserInput s m o).session.judges.map Judge.currentOffer
            = s.judges.map Judge.currentOffer
        ∧ (processUserInput s m o).session.conversationHistory
            = s.conversationHistory ++ [Dialogue.mk "player" m]) := by
  constructor
  · rw [processUserInput_dispatch]
    cases hst : s.currentStage with
    | evaluation => exact Nat.zero_le _
    | initial_offers =>
      rcases stepInitialOffers_stage (pushAndScore s m o.scores) o.analysis with h | h <;>
        simp [h, stageIdx]
    | negotiation =>
      rcases stepNegotiation_stage (pushAndScore s m o.scores) o.analysis with h | h
      · simp [h, stageIdx]
      · rw [h, pushAndScore_currentStage, hst]
    | closure => simp [stageIdx, pushAndScore, hst]
  · intro hst
    rw [processUserInput_dispatch]
    rw [hst]
    refine ⟨by simp [pushAndScore, hst], rfl, rfl, ?_, rfl⟩
    exact scoreJudges_map_currentOffer s.judges o.scores

theorem C2_witness :
    (exampleSession GameStage.closure registryJudges 0 0).currentStage = GameStage.closure
    ∧ (processUserInput (exampleSession GameStage.closure registryJudges 0 0) "hello"
        { scores := [none, none, none], analysis := none }).session.currentStage
        = GameStage.closure
    ∧ (processUserInput (exampleSession GameStage.closure registryJudges 0 0) "hello"
        { scores := [none, none, none], analysis := none }).session.acceptedOffer
        = (exampleSession GameStage.closure registryJudges 0 0).acceptedOffer := by
  have h := (C2_stage_monotonic (exampleSession GameStage.closure registryJudges 0 0) "hello"
    { scores := [none, none, none], analysis := none }).2 rfl
  exact ⟨rfl, h.1, h.2.2.1⟩

/-- C3: in the evaluation stage the resulting stage is independent of the
message content; fewer than the threshold (3) of player messages keeps the
session in evaluation; on the turn reaching the threshold the session moves
to initial_offers, with every judge of (post-scoring) conviction >= 50
receiving a generated offer with amount = conviction * 1000 and
equity = round(conviction / 2), not final, judges below 50 untouched; with
no judge at conviction >= 50 the session moves directly to closure. -/
theorem C3_evaluation_threshold (s : GameSession) (m : String) (o : Oracle)
    (h : s.currentStage = GameStage.evaluation) :
    (∀ m2 : String, (processUserInput s m o).session.currentStage
        = (processUserInput s m2 o).session.currentStage)
    ∧ (s.playerResponseCount + 1 < GAME_CONFIG.maxEvaluationResponses →
        (processUserInput s m o).session.currentStage = GameStage.evaluation
        ∧ (processUserInput s m o).session.playerResponseCount = s.playerResponseCount + 1
        ∧ (processUserInput s m o).session.judgeOffers = s.judgeOffers)
    ∧ (GAME_CONFIG.maxEvaluationResponses ≤ s.playerResponseCount + 1 →
        (hasInterestedJudges (scoreJudges s.judges o.scores) = false →
          (processUserInput s m o).session.currentStage = GameStage.closure)
        ∧ (hasInterestedJudges (scoreJudges s.judges o.scores) = true →
          (processUserInput s m o).session.currentStage = GameStage.initial_offers
          ∧ List.Forall₂ (fun j2 j =>
              (50 ≤ j.convictionLevel →
                j2.currentOffer = some { amount := (j.convictionLevel : ℤ) * 1000,
                                         equity := ((j.convictionLevel : ℤ) + 1) / 2,
                                         isFinal := false }
                ∧ j2.convictionLevel = j.convictionLevel)
              ∧ (j.convictionLevel < 50 → j2 = j))
            (processUserInput s m o).session.judges (scoreJudges s.judges o.scores))) := by
  simp only [processUserInput_dispatch, h]
  by_cases hc : GAME_CONFIG.maxEvaluationResponses ≤ s.playerResponseCount + 1
  · by_cases hi : interestedJudges (scoreJudges s.judges o.scores) = []
    · have hfalse : hasInterestedJudges (scoreJudges s.judges o.scores) = false := by
        rcases Bool.eq_false_or_eq_true (hasInterestedJudges (scoreJudges s.judges o.scores))
          with hb | hb
        · exact absurd hi ((hasInterestedJudges_iff _).mp hb)
        · exact hb
      refine ⟨?_, ?_, ?_⟩
      · intro m2
        simp [stepEvaluation, pushAndScore, hc, hi]
      · intro hlt
        omega
      · intro _
        refine ⟨?_, ?_⟩
        · intro _
          simp [stepEvaluation, pushAndScore, hc, hi]
        · intro htrue
          exact absurd hi ((hasInterestedJudges_iff _).mp htrue)
    · have htrue : hasInterestedJudges (scoreJudges s.judges o.scores) = true :=
        (hasInterestedJudges_iff _).mpr hi
      refine ⟨?_, ?_, ?_⟩
      · intro m2
        simp [stepEvaluation, pushAndScore, giveInitialOffers, hc, hi]
      · intro hlt
        omega
      · intro _
        refine ⟨?_, ?_⟩
        · intro hfalse
          rw [htrue] at hfalse
          exact absurd hfalse (by simp)
        · intro _
          constructor
          · simp [stepEvaluation, pushAndScore, giveInitialOffers, hc, hi]
          · have hjudges : (stepEvaluation (pushAndScore s m o.scores)).session.judges
                = (scoreJudges s.judges o.scores).map (fun j =>
                    if 50 ≤ j.convictionLevel
                    then { j with currentOffer := some (initialOfferFor j) } else j) := by
              simp [stepEvaluation, pushAndScore, giveInitialOffers, hc, hi]
            rw [hjudges]
            refine forall₂_map_self _ _ (fun j hj => ⟨?_, ?_⟩)
            · intro h50
              rw [if_pos h50]
              exact ⟨by rw [initialOfferFor_eq], rfl⟩
            · intro hlt
              rw [if_neg (by omega)]
  · refine ⟨?_, ?_, ?_⟩
    · intro m2
      simp [stepEvaluation, pushAndScore, hc]
    · intro _
      refine ⟨?_, ?_, ?_⟩ <;> simp [stepEvaluation, pushAndScore, hc, h]
    · intro hge
      omega

theorem C3_witness :
    (exampleSession GameStage.evaluation registryJudges 2 0).currentStage
        = GameStage.evaluation
    ∧ GAME_CONFIG.maxEvaluationResponses ≤ 2 + 1
    ∧ hasInterestedJudges (scoreJudges registryJudges [none, none, none]) = true
    ∧ (processUserInput (exampleSession GameStage.evaluation registryJudges 2 0) "our revenue"
        { scores := [none, none, none], analysis := none }).session.currentStage
        = GameStage.initial_offers := by
  have h := ((C3_evaluation_threshold (exampleSession GameStage.evaluation registryJudges 2 0)
      "our revenue" { scores := [none, none, none], analysis := none } rfl).2.2
    (by decide)).2 (by decide)
  exact ⟨rfl, by decide, by decide, h.1⟩

theorem stepNegotiation_at_max (s : GameSession) (a : Option PlayerAnalysis)
    (hmax : GAME_CONFIG.maxNegotiationRounds ≤ s.negotiationRound + 1) :
    stepNegotiation s a
      = { session := { s with currentStage := GameStage.closure, stageProgress := 0,
                              negotiationRound := s.negotiationRound + 1 },
          threw := false, classifierCalled := false } := by
  unfold stepNegotiation
  dsimp only
  rw [if_pos hmax]

theorem stepNegotiation_below_max (s : GameSession) (a : Option PlayerAnalysis)
    (hlt : s.negotiationRound + 1 < GAME_CONFIG.maxNegotiationRounds) :
    (stepNegotiation s a).classifierCalled = true
    ∧ ((analyzePlayerResponse a).isAcceptance = false →
        (analyzePlayerResponse a).isCounterOffer = false →
        stepNegotiation s a
          = { session := { s with negotiationRound := s.negotiationRound + 1,
                                  stageProgress := s.stageProgress + 1 },
              threw := false, classifierCalled := true }) := by
  unfold stepNegotiation
  dsimp only
  rw [if_neg (by omega : ¬ GAME_CONFIG.maxNegotiationRounds ≤ s.negotiationRound + 1)]
  constructor
  · split
    · split <;> rfl
    · split
      · split
        · split <;> rfl
        · rfl
      · rfl
  · intro hna hnc
    rw [if_neg (by simp [hna]), if_neg (by simp [hnc])]

/-- C4: in the negotiation stage, the turn on which the bumped round counter
reaches the maximum (3) forces the stage to closure regardless of message
content or classification; below the maximum the message is classified
(classifier called, as in initial_offers), and a classification of neither
acceptance nor counter-offer leaves the session in negotiation. -/
theorem C4_negotiation_round_cap (s : GameSession) (m : String) (o : Oracle)
    (h : s.currentStage = GameStage.negotiation) :
    (GAME_CONFIG.maxNegotiationRounds ≤ s.negotiationRound + 1 →
        (processUserInput s m o).session.currentStage = GameStage.closure
        ∧ (processUserInput s m o).session.negotiationRound = s.negotiationRound + 1
        ∧ (processUserInput s m o).classifierCalled = false)
    ∧ (s.negotiationRound + 1 < GAME_CONFIG.maxNegotiationRounds →
        (processUserInput s m o).classifierCalled = true
        ∧ ((analyzePlayerResponse o.analysis).isAcceptance = false →
            (analyzePlayerResponse o.analysis).isCounterOffer = false →
            (processUserInput s m o).session.currentStage = GameStage.negotiation)) := by
  simp only [processUserInput_dispatch, h]
  constructor
  · intro hmax
    rw [stepNegotiation_at_max (pushAndScore s m o.scores) o.analysis hmax]
    exact ⟨rfl, rfl, rfl⟩
  · intro hlt
    have hb := stepNegotiation_below_max (pushAndScore s m o.scores) o.analysis hlt
    refine ⟨hb.1, fun hna hnc => ?_⟩
    rw [hb.2 hna hnc]
    simp [pushAndScore, h]

theorem C4_witness :
    (exampleSession GameStage.negotiation registryJudges 0 2).currentStage
        = GameStage.negotiation
    ∧ GAME_CONFIG.maxNegotiationRounds ≤ 2 + 1
    ∧ (processUserInput (exampleSession GameStage.negotiation registryJudges 0 2)
        "I accept the deal"
        { scores := [none, none, none],
          analysis := some { isAcceptance := true, isCounterOffer := false,
                             counterOfferAmount := none,
                             counterOfferEquity := none } }).session.currentStage
        = GameStage.closure := by
  have h := (C4_negotiation_round_cap (exampleSession GameStage.negotiation registryJudges 0 2)
      "I accept the deal"
      { scores := [none, none, none],
        analysis := some { isAcceptance := true, isCounterOffer := false,
                           counterOfferAmount := none, counterOfferEquity := none } }
      rfl).1 (by decide)
  exact ⟨rfl, by decide, h.1⟩

/-- C5 (refuted; the spec states the intended behavior): in the negotiation
stage, with no judge left at conviction >= 50, an acceptance classification
reaches the unguarded read of .id on the undefined result of
filter(conviction >= 50)[0], and the TypeError escapes processUserInput
instead of being handled by a forced-closure fallback branch (the guard
present in initial_offers is missing in negotiation). -/
theorem C5_negotiation_unguarded_throw :
    (processUserInput
        (exampleSession GameStage.negotiation
          [mkJudge "judge1" "Namita Thapar" 40, mkJudge "judge2" "Aman Gupta" 45] 0 0)
        "I accept your offer"
        { scores := [none, none],
          analysis := some { isAcceptance := true, isCounterOffer := false,
                             counterOfferAmount := none, counterOfferEquity := none } }).threw
      = true := by
  decide

/-- C6: a failed or unparseable player-intent classification is replaced by
the defaults isAcceptance = false, isCounterOffer = false with no
counter-offer fields, and with that oracle outcome processUserInput never
lets an exception escape, whatever the session state and scoring results. -/
theorem C6_classification_failure_safe (s : GameSession) (m : String)
    (scores : List (Option ℤ)) :
    analyzePlayerResponse none
        = { isAcceptance := false, isCounterOffer := false,
            counterOfferAmount := none, counterOfferEquity := none }
    ∧ (processUserInput s m { scores := scores, analysis := none }).threw = false := by
  refine ⟨rfl, ?_⟩
  rw [processUserInput_dispatch]
  cases hst : s.currentStage
  case evaluation => exact stepEvaluation_no_throw _
  case initial_offers =>
    unfold stepInitialOffers
    dsimp only
    split
    · rfl
    · rfl
  case negotiation =>
    unfold stepNegotiation
    dsimp only
    split
    · rfl
    · rfl
  case closure => rfl

/-- C7: a generated judge reply containing a case-insensitive bail-out
marker substring forces the conviction of that judge to exactly 0 for the turn,
whatever the stage and any extracted offer; a reply without such a substring
never changes the conviction through this path (the smoothing track is the
only numeric one). -/
theorem C7_im_out_override (stage : GameStage) (j : Judge) (reply : String)
    (ext : Option (ℤ × ℤ)) :
    (mentionsOut reply = true →
        (generateJudgeResponse stage j reply ext).judge.convictionLevel = 0)
    ∧ (mentionsOut reply = false →
        (generateJudgeResponse stage j reply ext).judge.convictionLevel
          = j.convictionLevel) := by
  unfold generateJudgeResponse
  constructor
  · intro hm
    rw [if_pos hm]
  · intro hm
    rw [if_neg (by simp [hm])]
    split
    · cases ext with
      | none => rfl
      | some p =>
        obtain ⟨a, b⟩ := p
        rfl
    · rfl

theorem C7_witness :
    mentionsOut "Sorry folks, IM OUT." = true
    ∧ (generateJudgeResponse GameStage.initial_offers (mkJudge "judge1" "Namita Thapar" 80)
        "Sorry folks, IM OUT." (some (500000, 20))).judge.convictionLevel = 0 := by
  exact ⟨by decide, (C7_im_out_override GameStage.initial_offers
    (mkJudge "judge1" "Namita Thapar" 80) "Sorry folks, IM OUT."
    (some (500000, 20))).1 (by decide)⟩

/-- C8: for the reply endpoint, in the evaluation stage the replying judges
are always the first two judges in registry order (for the concrete registry:
Namita Thapar and Aman Gupta), independent of conviction; in every other
stage the selection is exactly the judges with conviction >= 20, sorted by
descending conviction (stably), truncated to the first two: it equals the
take-2 of the stable descending sort of the qualifying judges, its length is
min 2 (number of qualifying judges) and in particular at most 2, each
selected judge qualifies and comes from the session, the list is descending,
every qualifying judge is selected unless two judges are already selected,
and any unselected qualifying judge has conviction at most that of each
selected judge. -/
theorem C8_reply_judge_selection (stage : GameStage) (judges : List Judge) :
    (stage = GameStage.evaluation →
        selectReplyingJudges stage judges = judges.take 2
        ∧ (selectReplyingJudges GameStage.evaluation registryJudges).map Judge.name
            = ["Namita Thapar", "Aman Gupta"])
    ∧ (stage ≠ GameStage.evaluation →
        selectReplyingJudges stage judges
            = (sortByConvictionDesc
                (judges.filter (fun j => decide (20 ≤ j.convictionLevel)))).take 2
        ∧ (selectReplyingJudges stage judges).length
            = min 2 (judges.filter (fun j => decide (20 ≤ j.convictionLevel))).length
        ∧ (selectReplyingJudges stage judges).length ≤ 2
        ∧ (∀ j ∈ selectReplyingJudges stage judges, 20 ≤ j.convictionLevel ∧ j ∈ judges)
        ∧ List.Pairwise (fun a b => b.convictionLevel ≤ a.convictionLevel)
            (selectReplyingJudges stage judges)
        ∧ (∀ j ∈ judges, 20 ≤ j.convictionLevel →
            j ∉ selectReplyingJudges stage judges →
            (selectReplyingJudges stage judges).length = 2)
        ∧ (∀ j ∈ judges, 20 ≤ j.convictionLevel →
            j ∉ selectReplyingJudges stage judges →
            ∀ k ∈ selectReplyingJudges stage judges,
              j.convictionLevel ≤ k.convictionLevel)) := by
  constructor
  · intro he
    subst he
    exact ⟨by simp [selectReplyingJudges], by decide⟩
  · intro hne
    have hsel : selectReplyingJudges stage judges
        = (sortByConvictionDesc
            (judges.filter (fun j => decide (20 ≤ j.convictionLevel)))).take 2 := by
      unfold selectReplyingJudges
      rw [if_neg hne]
    have hperm := sortByConvictionDesc_perm
      (judges.filter (fun j => decide (20 ≤ j.convictionLevel)))
    have hpw := sortByConvictionDesc_pairwise
      (judges.filter (fun j => decide (20 ≤ j.convictionLevel)))
    have hmemdrop : ∀ j ∈ judges, 20 ≤ j.convictionLevel →
        j ∉ (sortByConvictionDesc
          (judges.filter (fun j => decide (20 ≤ j.convictionLevel)))).take 2 →
        j ∈ (sortByConvictionDesc
          (judges.filter (fun j => decide (20 ≤ j.convictionLevel)))).drop 2 := by
      intro j hjj h20 hnot
      have hjf : j ∈ judges.filter (fun j => decide (20 ≤ j.convictionLevel)) :=
        List.mem_filter.mpr ⟨hjj, by simpa using h20⟩
      have hjL := hperm.mem_iff.mpr hjf
      have hjsplit : j ∈ (sortByConvictionDesc
          (judges.filter (fun j => decide (20 ≤ j.convictionLevel)))).take 2
          ++ (sortByConvictionDesc
          (judges.filter (fun j => decide (20 ≤ j.convictionLevel)))).drop 2 := by
        rw [List.take_append_drop]
        exact hjL
      rcases List.mem_append.mp hjsplit with h1 | h2
      · exact absurd h1 hnot
      · exact h2
    rw [hsel]
    refine ⟨rfl, ?_, ?_, ?_, ?_, ?_, ?_⟩
    · rw [List.length_take, hperm.length_eq]
    · rw [List.length_take]
      exact min_le_left _ _
    · intro j hj
      have hjL := List.mem_of_mem_take hj
      have hjf := hperm.mem_iff.mp hjL
      obtain ⟨hjj, hdec⟩ := List.mem_filter.mp hjf
      exact ⟨by simpa using hdec, hjj⟩
    · exact hpw.sublist (List.take_sublist 2 _)
    · intro j hjj h20 hnot
      have hjd := hmemdrop j hjj h20 hnot
      have h0 : 0 < ((sortByConvictionDesc
          (judges.filter (fun j => decide (20 ≤ j.convictionLevel)))).drop 2).length :=
        List.length_pos.mpr (List.ne_nil_of_mem hjd)
      rw [List.length_drop] at h0
      rw [List.length_take]
      omega
    · intro j hjj h20 hnot k hk
      have hjd := hmemdrop j hjj h20 hnot
      have hpw2 : List.Pairwise (fun a b => b.convictionLevel ≤ a.convictionLevel)
          ((sortByConvictionDesc
            (judges.filter (fun j => decide (20 ≤ j.convictionLevel)))).take 2
          ++ (sortByConvictionDesc
            (judges.filter (fun j => decide (20 ≤ j.convictionLevel)))).drop 2) := by
        rw [List.take_append_drop]
        exact hpw
      exact (List.pairwise_append.mp hpw2).2.2 k hk j hjd

theorem C8_witness :
    GameStage.negotiation ≠ GameStage.evaluation
    ∧ (selectReplyingJudges GameStage.negotiation
        [mkJudge "judge1" "a" 60, mkJudge "judge2" "b" 10,
         mkJudge "judge3" "c" 30]).length
        = min 2 ([mkJudge "judge1" "a" 60, mkJudge "judge2" "b" 10,
            mkJudge "judge3" "c" 30].filter
            (fun j => decide (20 ≤ j.convictionLevel))).length
    ∧ (selectReplyingJudges GameStage.negotiation
        [mkJudge "judge1" "a" 60, mkJudge "judge2" "b" 10,
         mkJudge "judge3" "c" 30]).length ≤ 2
    ∧ List.Pairwise (fun a b => b.convictionLevel ≤ a.convictionLevel)
        (selectReplyingJudges GameStage.negotiation
          [mkJudge "judge1" "a" 60, mkJudge "judge2" "b" 10,
           mkJudge "judge3" "c" 30]) := by
  have h := (C8_reply_judge_selection GameStage.negotiation
    [mkJudge "judge1" "a" 60, mkJudge "judge2" "b" 10,
     mkJudge "judge3" "c" 30]).2 (by decide)
  exact ⟨by decide, h.2.1, h.2.2.1, h.2.2.2.2.1⟩

/-- C9: on the turn where the bumped negotiation round counter reaches the
maximum, the message of the player is never classified: the result is identical
for every possible classification outcome, the stage becomes closure, and
acceptedOffer and judgeOffers are exactly what they were before the turn, so
an acceptance in that final message is ignored. -/
theorem C9_final_round_skips_classification (s : GameSession) (m : String) (o : Oracle)
    (h : s.currentStage = GameStage.negotiation)
    (hmax : GAME_CONFIG.maxNegotiationRounds ≤ s.negotiationRound + 1) :
    (processUserInput s m o).classifierCalled = false
    ∧ (processUserInput s m o).session.currentStage = GameStage.closure
    ∧ (processUserInput s m o).session.acceptedOffer = s.acceptedOffer
    ∧ (processUserInput s m o).session.judgeOffers = s.judgeOffers
    ∧ ∀ a2 : Option PlayerAnalysis,
        processUserInput s m { scores := o.scores, analysis := a2 }
          = processUserInput s m o := by
  simp only [processUserInput_dispatch, h]
  rw [stepNegotiation_at_max (pushAndScore s m o.scores) o.analysis hmax]
  refine ⟨rfl, rfl, rfl, rfl, fun a2 => ?_⟩
  rw [stepNegotiation_at_max (pushAndScore s m o.scores) a2 hmax]

theorem C9_witness :
    (exampleSession GameStage.negotiation registryJudges 0 2).currentStage
        = GameStage.negotiation
    ∧ GAME_CONFIG.maxNegotiationRounds ≤ 2 + 1
    ∧ (processUserInput (exampleSession GameStage.negotiation registryJudges 0 2)
        "Deal. I am in, I accept."
        { scores := [none, none, none],
          analysis := some { isAcceptance := true, isCounterOffer := false,
                             counterOfferAmount := none,
                             counterOfferEquity := none } }).classifierCalled = false
    ∧ (processUserInput (exampleSession GameStage.negotiation registryJudges 0 2)
        "Deal. I am in, I accept."
        { scores := [none, none, none],
          analysis := some { isAcceptance := true, isCounterOffer := false,
                             counterOfferAmount := none,
                             counterOfferEquity := none } }).session.acceptedOffer
        = (exampleSession GameStage.negotiation registryJudges 0 2).acceptedOffer := by
  have h := C9_final_round_skips_classification
    (exampleSession GameStage.negotiation registryJudges 0 2)
    "Deal. I am in, I accept."
    { scores := [none, none, none],
      analysis := some { isAcceptance := true, isCounterOffer := false,
                         counterOfferAmount := none, counterOfferEquity := none } }
    rfl (by decide)
  exact ⟨rfl, by decide, h.1, h.2.2.1⟩

/-- C10: on a turn classified as a counter-offer (in initial_offers with an
interested judge present, or in negotiation below the round cap), the
judgeOffers record is overwritten only when both extracted numbers are
truthy (present and non-zero), and then exactly at the highest-conviction
key of the highest-conviction qualifying judge; if either number is 0, null or missing, judgeOffers
and the currentOffer of every judge are left completely unchanged, although in
initial_offers the stage still moves to negotiation. -/
theorem C10_counter_offer_truthiness_gate (s : GameSession) (m : String)
    (scores : List (Option ℤ)) (pa : PlayerAnalysis)
    (hst : s.currentStage = GameStage.initial_offers
           ∨ s.currentStage = GameStage.negotiation)
    (hac : pa.isAcceptance = false) (hco : pa.isCounterOffer = true)
    (hreach₁ : s.currentStage = GameStage.initial_offers →
        hasInterestedJudges (scoreJudges s.judges scores) = true)
    (hreach₂ : s.currentStage = GameStage.negotiation →
        s.negotiationRound + 1 < GAME_CONFIG.maxNegotiationRounds) :
    (¬(numTruthy pa.counterOfferAmount = true ∧ numTruthy pa.counterOfferEquity = true) →
        (processUserInput s m (Oracle.mk scores (some pa))).session.judgeOffers
            = s.judgeOffers
        ∧ (processUserInput s m (Oracle.mk scores (some pa))).session.judges.map
              Judge.currentOffer
            = s.judges.map Judge.currentOffer)
    ∧ (numTruthy pa.counterOfferAmount = true → numTruthy pa.counterOfferEquity = true →
        ∀ hj, highestConvictionJudge (scoreJudges s.judges scores) = some hj →
          (processUserInput s m (Oracle.mk scores (some pa))).session.judgeOffers
              = setOffer s.judgeOffers hj.id
                  { amount := pa.counterOfferAmount.getD 0,
                    equity := pa.counterOfferEquity.getD 0, isFinal := false }
          ∧ (processUserInput s m (Oracle.mk scores (some pa))).session.judges.map
                Judge.currentOffer
              = s.judges.map Judge.currentOffer)
    ∧ (s.currentStage = GameStage.initial_offers →
        (processUserInput s m
            (Oracle.mk scores (some pa))).session.currentStage = GameStage.negotiation) := by
  rcases hst with h1 | h1
  · have htrue := hreach₁ h1
    simp only [processUserInput_dispatch, h1]
    unfold stepInitialOffers
    simp only [pushAndScore]
    simp only [show analyzePlayerResponse (some pa) = pa from rfl]
    rw [if_neg (not_not_intro htrue), if_neg (by simp [hac]), if_pos hco]
    by_cases ht : (numTruthy pa.counterOfferAmount && numTruthy pa.counterOfferEquity) = true
    · rw [if_pos ht]
      refine ⟨?_, ?_, ?_⟩
      · intro hcon
        exact absurd ⟨(Bool.and_eq_true _ _).mp ht |>.1,
          (Bool.and_eq_true _ _).mp ht |>.2⟩ hcon
      · intro _ _ hj hhj
        rw [hhj]
        exact ⟨rfl, scoreJudges_map_currentOffer s.judges scores⟩
      · intro _
        cases hm : highestConvictionJudge (scoreJudges s.judges scores) with
        | none => rfl
        | some hjx => rfl
    · rw [if_neg ht]
      refine ⟨?_, ?_, ?_⟩
      · intro _
        exact ⟨rfl, scoreJudges_map_currentOffer s.judges scores⟩
      · intro ha hb
        exact absurd ((Bool.and_eq_true _ _).mpr ⟨ha, hb⟩) ht
      · intro _
        rfl
  · have hlt := hreach₂ h1
    have hmax' : ¬ GAME_CONFIG.maxNegotiationRounds ≤ s.negotiationRound + 1 := by omega
    simp only [processUserInput_dispatch, h1]
    unfold stepNegotiation
    simp only [pushAndScore]
    simp only [show analyzePlayerResponse (some pa) = pa from rfl]
    rw [if_neg hmax', if_neg (by simp [hac]), if_pos hco]
    by_cases ht : (numTruthy pa.counterOfferAmount && numTruthy pa.counterOfferEquity) = true
    · rw [if_pos ht]
      refine ⟨?_, ?_, ?_⟩
      · intro hcon
        exact absurd ⟨(Bool.and_eq_true _ _).mp ht |>.1,
          (Bool.and_eq_true _ _).mp ht |>.2⟩ hcon
      · intro _ _ hj hhj
        rw [hhj]
        exact ⟨rfl, scoreJudges_map_currentOffer s.judges scores⟩
      · intro hbad
        exact absurd hbad (by decide)
    · rw [if_neg ht]
      refine ⟨?_, ?_, ?_⟩
      · intro _
        exact ⟨rfl, scoreJudges_map_currentOffer s.judges scores⟩
      · intro ha hb
        exact absurd ((Bool.and_eq_true _ _).mpr ⟨ha, hb⟩) ht
      · intro hbad
        exact absurd hbad (by decide)

theorem C10_witness :
    (exampleSession GameStage.initial_offers registryJudges 0 0).currentStage
        = GameStage.initial_offers
    ∧ hasInterestedJudges (scoreJudges registryJudges [none, none, none]) = true
    ∧ (processUserInput (exampleSession GameStage.initial_offers registryJudges 0 0)
        "How about more money"
        { scores := [none, none, none],
          analysis := some { isAcceptance := false, isCounterOffer := true,
                             counterOfferAmount := some 0,
                             counterOfferEquity := some 10 } }).session.judgeOffers
        = (exampleSession GameStage.initial_offers registryJudges 0 0).judgeOffers
    ∧ (processUserInput (exampleSession GameStage.initial_offers registryJudges 0 0)
        "How about more money"
        { scores := [none, none, none],
          analysis := some { isAcceptance := false, isCounterOffer := true,
                             counterOfferAmount := some 0,
                             counterOfferEquity := some 10 } }).session.currentStage
        = GameStage.negotiation := by
  have h := C10_counter_offer_truthiness_gate
    (exampleSession GameStage.initial_offers registryJudges 0 0)
    "How about more money" [none, none, none]
    { isAcceptance := false, isCounterOffer := true,
      counterOfferAmount := some 0, counterOfferEquity := some 10 }
    (Or.inl rfl) rfl rfl (fun _ => by decide) (fun hbad => absurd hbad (by decide))
  exact ⟨rfl, by decide, (h.1 (by decide)).1, h.2.2 rfl⟩

end FishTank
